import Mathlib

/-!
Verification of the store-visit image-processing service (`main.go`).

The Go program accepts a batch of store visits, each with image URLs.
`processJob` scans visits in order; an unknown store id aborts the scan
(marking the job "failed"), while each image of a known-store visit is
dispatched to its own goroutine that records either an `ImageResult` or a
`StoreError` into the job under the job's mutex.  After the scan the main
goroutine joins (`wg.Wait()`) and finalizes the status.

We embed the job-processing core as a small-step transition system
(`Step`): the scan loop, the concurrently settling image units, the
abort-on-unknown-store early return, and the final join/finalize are
individual atomic steps (each mutation in the Go code happens under the
job mutex, so this interleaving model is faithful).  Network fetching and
image decoding (`downloadAndGetDimensions`) is an external effect and is
modelled by a fetch oracle mapping a URL to either decoded dimensions or
an error message.  The `float64` perimeter `2.0 * float64(width+height)`
is modelled as the natural number `2 * (width + height)`, exact for all
realistic dimensions.
-/

namespace ImageProc

/-- `Store` from the Store Master (main.go `Store`). -/
structure Store where
  storeID : String
  storeName : String
  areaCode : String
deriving Repr, DecidableEq

/-- A store visit with images (main.go `Visit`). -/
structure Visit where
  storeID : String
  imageURLs : List String
  visitTime : String
deriving Repr, DecidableEq

/-- Request payload for job submission (main.go `SubmitJobRequest`).
`count` is a Go `int`, so we use `Int`. -/
structure SubmitJobRequest where
  count : Int
  visits : List Visit
deriving Repr, DecidableEq

/-- An error for a specific store (main.go `StoreError`). -/
structure StoreError where
  storeID : String
  error : String
deriving Repr, DecidableEq

/-- Result of processing one image (main.go `ImageResult`). -/
structure ImageResult where
  storeID : String
  storeName : String
  areaCode : String
  imageURL : String
  width : Nat
  height : Nat
  perimeter : Nat
deriving Repr, DecidableEq

/-- The mutable job entity (main.go `JobData`).  `completedAtSet` models
whether `CompletedAt` has been assigned (Go zero time vs. set). -/
structure JobData where
  status : String
  results : List ImageResult
  errors : List StoreError
  completedAtSet : Bool
deriving Repr, DecidableEq

/-- The in-memory store master (main.go `storeMaster`). -/
def storeMaster : List (String × Store) :=
  [("S00339218", ⟨"S00339218", "Store A", "NYC"⟩),
   ("S01408764", ⟨"S01408764", "Store B", "LA"⟩)]

/-- Store lookup (main.go `getStore`). -/
def getStore (storeID : String) : Option Store :=
  (storeMaster.find? (fun p => p.1 == storeID)).map (fun p => p.2)

/-- The environment for `downloadAndGetDimensions`: a URL either yields
decoded pixel dimensions `(width, height)` or an error message (request
failure, non-200 status, or decode failure). -/
abbrev FetchOracle := String → Except String (Nat × Nat)

/-- main.go `calculateImagePerimeter`: second store lookup, fetch, and
perimeter computation. -/
def calculateImagePerimeter (f : FetchOracle) (storeID imageURL : String) :
    Except String ImageResult :=
  match getStore storeID with
  | none => .error ("store ID " ++ storeID ++ " does not exist")
  | some store =>
    match f imageURL with
    | .error e => .error e
    | .ok wh =>
      .ok { storeID := store.storeID, storeName := store.storeName,
            areaCode := store.areaCode, imageURL := imageURL,
            width := wh.1, height := wh.2, perimeter := 2 * (wh.1 + wh.2) }

/-- The body of `calculateImagePerimeter` after the store-existence check
succeeded (used to state that the unknown-store branch is not taken). -/
def perimeterWithStore (f : FetchOracle) (store : Store) (imageURL : String) :
    Except String ImageResult :=
  match f imageURL with
  | .error e => .error e
  | .ok wh =>
    .ok { storeID := store.storeID, storeName := store.storeName,
          areaCode := store.areaCode, imageURL := imageURL,
          width := wh.1, height := wh.2, perimeter := 2 * (wh.1 + wh.2) }

/-- One dispatched unit of concurrent work: the `(storeID, imageURL)`
pair captured by the per-image goroutine in `processJob`. -/
abbrev ImageUnit := String × String

/-- The units dispatched for one visit (the inner loop of `processJob`). -/
def visitUnits (v : Visit) : List ImageUnit :=
  v.imageURLs.map (fun url => (v.storeID, url))

/-- All units of a list of visits, in dispatch order. -/
def allUnits : List Visit → List ImageUnit
  | [] => []
  | v :: rest => visitUnits v ++ allUnits rest

/-- Effect of one goroutine finishing (main.go lines 184-201): on error,
set status "failed" and append a `StoreError`; on success append the
`ImageResult`. -/
def settleUnit (f : FetchOracle) (u : ImageUnit) (j : JobData) : JobData :=
  match calculateImagePerimeter f u.1 u.2 with
  | .error e => { j with status := "failed", errors := j.errors ++ [⟨u.1, e⟩] }
  | .ok r => { j with results := j.results ++ [r] }

/-- Effect of the unknown-store early return (main.go lines 169-178):
mark failed, append the fixed-message error, set `CompletedAt`. -/
def abortJob (storeID : String) (j : JobData) : JobData :=
  { j with status := "failed",
           errors := j.errors ++ [⟨storeID, "Store ID does not exist"⟩],
           completedAtSet := true }

/-- Effect of the final block after `wg.Wait()` (main.go lines 208-213). -/
def finalizeJob (j : JobData) : JobData :=
  { j with status := if j.status = "failed" then j.status else "completed",
           completedAtSet := true }

/-- Control position of the `processJob` goroutine. -/
inductive Phase where
  /-- inside the visit loop -/
  | scanning
  /-- at `wg.Wait()` -/
  | waiting
  /-- returned early from the unknown-store branch (no finalize ever runs;
  goroutines launched earlier may still be in flight) -/
  | aborted
  /-- final block executed -/
  | done
deriving Repr, DecidableEq

/-- Global state of one job's processing: the shared `JobData`, the
visits not yet scanned, the dispatched-but-unsettled units, and the
orchestrator's control position. -/
structure ProcState where
  job : JobData
  toScan : List Visit
  pending : List ImageUnit
  phase : Phase
deriving Repr, DecidableEq

/-- Job freshly created by `handleSubmitJob` (status "ongoing"). -/
def initJob : JobData :=
  { status := "ongoing", results := [], errors := [], completedAtSet := false }

/-- State at the moment `processJob` is launched. -/
def initState (visits : List Visit) : ProcState :=
  { job := initJob, toScan := visits, pending := [], phase := .scanning }

/-- Interleaving semantics of `processJob` plus its goroutines.  Every
constructor is one atomic mutation of the shared state (each Go mutation
happens under `job.mu`, except the abort's `CompletedAt` write, which we
fold into the abort step). -/
inductive Step (f : FetchOracle) : ProcState → ProcState → Prop where
  /-- Scan a visit whose store exists: dispatch one unit per image URL
  (fire-and-forget) and move to the next visit. -/
  | scanOk (j : JobData) (v : Visit) (rest : List Visit)
      (pend : List ImageUnit) (st : Store)
      (hst : getStore v.storeID = some st) :
      Step f ⟨j, v :: rest, pend, .scanning⟩
             ⟨j, rest, pend ++ visitUnits v, .scanning⟩
  /-- Scan a visit whose store is unknown: mark failed, append the error,
  set `CompletedAt` and return; previously dispatched units stay in
  flight and the final block never runs. -/
  | scanFail (j : JobData) (v : Visit) (rest : List Visit)
      (pend : List ImageUnit)
      (hst : getStore v.storeID = none) :
      Step f ⟨j, v :: rest, pend, .scanning⟩
             ⟨abortJob v.storeID j, rest, pend, .aborted⟩
  /-- The visit loop ends; the orchestrator reaches `wg.Wait()`. -/
  | scanDone (j : JobData) (pend : List ImageUnit) :
      Step f ⟨j, [], pend, .scanning⟩ ⟨j, [], pend, .waiting⟩
  /-- Any in-flight unit finishes and records its outcome under the lock.
  This can interleave with the scan, the wait, and the aborted state, but
  not after the final block (the join guarantees no unit survives it). -/
  | settle (j : JobData) (ts : List Visit) (l1 l2 : List ImageUnit)
      (u : ImageUnit) (ph : Phase) (hph : ph ≠ .done) :
      Step f ⟨j, ts, l1 ++ u :: l2, ph⟩
             ⟨settleUnit f u j, ts, l1 ++ l2, ph⟩
  /-- `wg.Wait()` returns (all units settled) and the final block runs. -/
  | finalize (j : JobData) (ts : List Visit) :
      Step f ⟨j, ts, [], .waiting⟩ ⟨finalizeJob j, ts, [], .done⟩

/-- All states reachable by `processJob` on the given submission. -/
def Reaches (f : FetchOracle) (visits : List Visit) (s : ProcState) : Prop :=
  Relation.ReflTransGen (Step f) (initState visits) s

/-- No step applies: all concurrent activity for the job has ceased. -/
def Quiescent (f : FetchOracle) (s : ProcState) : Prop :=
  ∀ s', ¬ Step f s s'

example : getStore "S00339218" = some ⟨"S00339218", "Store A", "NYC"⟩ := rfl
example : getStore "UNKNOWN" = none := rfl
example :
    calculateImagePerimeter (fun _ => .ok (100, 50)) "S00339218" "urlA" =
      .ok ⟨"S00339218", "Store A", "NYC", "urlA", 100, 50, 300⟩ := rfl

/-! ### Outcome bookkeeping for the invariant -/

/-- The `ImageResult` a unit records if its goroutine succeeds. -/
def okOf (f : FetchOracle) (u : ImageUnit) : Option ImageResult :=
  match calculateImagePerimeter f u.1 u.2 with
  | .ok r => some r
  | .error _ => none

/-- The `StoreError` a unit records if its goroutine fails. -/
def errOf (f : FetchOracle) (u : ImageUnit) : Option StoreError :=
  match calculateImagePerimeter f u.1 u.2 with
  | .ok _ => none
  | .error e => some ⟨u.1, e⟩

theorem allUnits_append (l1 l2 : List Visit) :
    allUnits (l1 ++ l2) = allUnits l1 ++ allUnits l2 := by
  induction l1 with
  | nil => rfl
  | cons v rest ih => simp [allUnits, ih, List.append_assoc]

theorem storeID_of_mem_visitUnits {u : ImageUnit} {v : Visit}
    (h : u ∈ visitUnits v) : u.1 = v.storeID := by
  obtain ⟨url, -, rfl⟩ := List.mem_map.1 h
  rfl

theorem mem_allUnits_exists {u : ImageUnit} :
    ∀ {l : List Visit}, u ∈ allUnits l → ∃ v ∈ l, u.1 = v.storeID := by
  intro l
  induction l with
  | nil => intro h; cases h
  | cons v rest ih =>
    intro h
    rcases List.mem_append.1 h with h | h
    · exact ⟨v, List.mem_cons_self v rest, storeID_of_mem_visitUnits h⟩
    · obtain ⟨w, hw, hid⟩ := ih h
      exact ⟨w, List.mem_cons_of_mem v hw, hid⟩

/-- The first `n` visits scanned so far all had known stores. -/
def scannedOK (vs : List Visit) (n : Nat) : Prop :=
  ∀ v ∈ vs.take n, (getStore v.storeID).isSome

theorem scannedOK_of_le {vs : List Visit} {n m : Nat} (h : m ≤ n)
    (hs : scannedOK vs n) : scannedOK vs m :=
  fun v hv => hs v ((List.take_prefix_take_left vs h).subset hv)

theorem drop_cons_parts {α : Type} {vs : List α} {n : Nat} {v : α} {rest : List α}
    (h : vs.drop n = v :: rest) :
    n < vs.length ∧ vs[n]? = some v ∧ vs.drop (n + 1) = rest ∧
      vs.take (n + 1) = vs.take n ++ [v] := by
  have hn : n < vs.length := by
    by_contra hle
    rw [List.drop_eq_nil_of_le (Nat.le_of_not_lt hle)] at h
    exact absurd h (by simp)
  have hd := List.drop_eq_getElem_cons hn
  rw [hd] at h
  injection h with h1 h2
  refine ⟨hn, by rw [List.getElem?_eq_getElem hn, h1], h2, ?_⟩
  rw [List.take_succ, List.getElem?_eq_getElem hn, h1]
  rfl

/-- Phase-dependent part of the accounting invariant: where the scan
pointer stands and what the error list consists of. -/
def PhaseAcct (f : FetchOracle) (vs : List Visit) (ph : Phase) (ts : List Visit)
    (errors : List StoreError) (n : Nat) (settled : List ImageUnit) : Prop :=
  match ph with
  | .scanning => ts = vs.drop n ∧ errors.Perm (settled.filterMap (errOf f))
  | .waiting => n = vs.length ∧ errors.Perm (settled.filterMap (errOf f))
  | .done => n = vs.length ∧ errors.Perm (settled.filterMap (errOf f))
  | .aborted => ∃ v, vs[n]? = some v ∧ getStore v.storeID = none ∧
      errors.Perm (settled.filterMap (errOf f) ++
        [⟨v.storeID, "Store ID does not exist"⟩])

/-- Accounting invariant: for some list `settled` of already-settled
units, `settled` together with the pending units are exactly the units
of the scanned prefix (as a multiset), and the job's results and errors
are exactly the outcomes of the settled units (plus the single abort
error after an unknown-store early return). -/
def AcctAt (f : FetchOracle) (vs : List Visit) (s : ProcState) : Prop :=
  ∃ n settled, scannedOK vs n ∧
    (settled ++ s.pending).Perm (allUnits (vs.take n)) ∧
    s.job.results.Perm (settled.filterMap (okOf f)) ∧
    PhaseAcct f vs s.phase s.toScan s.job.errors n settled

/-- The master invariant of `processJob`, preserved by every `Step`. -/
structure Inv (f : FetchOracle) (vs : List Visit) (s : ProcState) : Prop where
  statusVals : s.job.status = "ongoing" ∨ s.job.status = "failed" ∨
    s.job.status = "completed"
  completedDone : s.job.status = "completed" → s.phase = Phase.done
  doneNotOngoing : s.phase = Phase.done → s.job.status ≠ "ongoing"
  donePending : s.phase = Phase.done → s.pending = []
  failedIffErrors : s.job.status = "failed" ↔ s.job.errors ≠ []
  completedAtPhase : s.job.completedAtSet = true ↔
    (s.phase = Phase.aborted ∨ s.phase = Phase.done)
  pendingKnown : ∀ u ∈ s.pending, (getStore u.1).isSome
  acct : AcctAt f vs s

theorem inv_init (f : FetchOracle) (vs : List Visit) :
    Inv f vs (initState vs) := by
  refine ⟨Or.inl rfl, ?_, ?_, ?_, ?_, ?_, ?_, ?_⟩
  · intro h; simp [initState, initJob] at h
  · intro h; simp [initState] at h
  · intro h; simp [initState] at h
  · simp [initState, initJob]
  · simp [initState, initJob]
  · intro u hu; simp [initState] at hu
  · exact ⟨0, [], fun v hv => by simp at hv, by simp [initState, allUnits],
      by simp [initState, initJob], by simp [initState, initJob, PhaseAcct]⟩

theorem inv_step {f : FetchOracle} {vs : List Visit} {s s' : ProcState}
    (hinv : Inv f vs s) (hstep : Step f s s') : Inv f vs s' := by
  obtain ⟨hsv, hcd, hdno, hdp, hfe, hca, hpk, hacct⟩ := hinv
  cases hstep with
  | scanOk j v rest pend st hst =>
    obtain ⟨n, settled, hok, hperm, hres, hph⟩ := hacct
    obtain ⟨hscan, herr⟩ := hph
    obtain ⟨hn, hget, hdrop1, htake1⟩ := drop_cons_parts hscan.symm
    refine ⟨hsv, ?_, ?_, ?_, hfe, hca, ?_, ?_⟩
    · intro h; exact hcd h
    · intro hd; exact hdno hd
    · intro hd; simp at hd
    · intro u hu
      rcases List.mem_append.1 hu with hu | hu
      · exact hpk u hu
      · rw [storeID_of_mem_visitUnits hu, hst]; rfl
    · refine ⟨n + 1, settled, ?_, ?_, hres, hdrop1.symm, herr⟩
      · intro w hw
        rw [htake1] at hw
        rcases List.mem_append.1 hw with hw | hw
        · exact hok w hw
        · have hv : w = v := List.mem_singleton.1 hw
          subst hv
          rw [hst]; rfl
      · rw [htake1, allUnits_append, ← List.append_assoc]
        simpa [allUnits] using hperm.append_right (visitUnits v)
  | scanFail j v rest pend hst =>
    obtain ⟨n, settled, hok, hperm, hres, hph⟩ := hacct
    obtain ⟨hscan, herr⟩ := hph
    obtain ⟨hn, hget, hdrop1, htake1⟩ := drop_cons_parts hscan.symm
    refine ⟨Or.inr (Or.inl rfl), ?_, ?_, ?_, ?_, ?_, hpk, ?_⟩
    · intro h; simp [abortJob] at h
    · intro hd; simp at hd
    · intro hd; simp at hd
    · simp [abortJob]
    · simp [abortJob]
    · exact ⟨n, settled, hok, hperm, hres, v, hget, hst, herr.append_right _⟩
  | scanDone j pend =>
    obtain ⟨n, settled, hok, hperm, hres, hph⟩ := hacct
    obtain ⟨hscan, herr⟩ := hph
    have hlen : vs.length ≤ n := List.drop_eq_nil_iff.1 hscan.symm
    have htake : vs.take n = vs := List.take_of_length_le hlen
    refine ⟨hsv, ?_, ?_, ?_, hfe, ?_, hpk, ?_⟩
    · intro h; have himp := hcd h; simp at himp
    · intro hd; simp at hd
    · intro hd; simp at hd
    · constructor
      · intro h
        rcases hca.1 h with h' | h' <;> simp at h'
      · intro h
        rcases h with h | h <;> simp at h
    · refine ⟨vs.length, settled, ?_, ?_, hres, rfl, herr⟩
      · intro w hw
        rw [List.take_length] at hw
        exact hok w (by rwa [htake])
      · rw [List.take_length]
        rwa [htake] at hperm
  | settle j ts l1 l2 u ph hph =>
    obtain ⟨n, settled, hok, hperm, hres, hpa⟩ := hacct
    have hpk' : ∀ w ∈ l1 ++ l2, (getStore w.1).isSome := by
      intro w hw
      rcases List.mem_append.1 hw with hw | hw
      · exact hpk w (List.mem_append.2 (Or.inl hw))
      · exact hpk w (List.mem_append.2 (Or.inr (List.mem_cons_of_mem u hw)))
    have hperm' : List.Perm ((u :: settled) ++ (l1 ++ l2)) (allUnits (vs.take n)) :=
      (List.Perm.trans List.perm_middle.symm
        (List.Perm.append_left settled List.perm_middle.symm)).trans hperm
    cases hcalc : calculateImagePerimeter f u.1 u.2 with
    | error e =>
      have hupdate : settleUnit f u j =
          { j with status := "failed", errors := j.errors ++ [⟨u.1, e⟩] } := by
        simp [settleUnit, hcalc]
      have hoku : okOf f u = none := by simp [okOf, hcalc]
      have herru : errOf f u = some ⟨u.1, e⟩ := by simp [errOf, hcalc]
      rw [hupdate]
      refine ⟨Or.inr (Or.inl rfl), ?_, ?_, ?_, ?_, hca, hpk', ?_⟩
      · intro h; simp at h
      · intro hd; exact absurd hd hph
      · intro hd; exact absurd hd hph
      · simp
      · refine ⟨n, u :: settled, hok, hperm', ?_, ?_⟩
        · rw [List.filterMap_cons_none hoku]; exact hres
        · cases ph with
          | scanning =>
            obtain ⟨hscan, herr⟩ := hpa
            refine ⟨hscan, ?_⟩
            rw [List.filterMap_cons_some herru]
            exact (List.perm_append_singleton _ _).trans (herr.cons _)
          | waiting =>
            obtain ⟨hl, herr⟩ := hpa
            refine ⟨hl, ?_⟩
            rw [List.filterMap_cons_some herru]
            exact (List.perm_append_singleton _ _).trans (herr.cons _)
          | aborted =>
            obtain ⟨v, hget, hstv, herr⟩ := hpa
            refine ⟨v, hget, hstv, ?_⟩
            rw [List.filterMap_cons_some herru, List.cons_append]
            exact (List.perm_append_singleton _ _).trans (herr.cons _)
          | done => exact absurd rfl hph
    | ok r =>
      have hupdate : settleUnit f u j = { j with results := j.results ++ [r] } := by
        simp [settleUnit, hcalc]
      have hoku : okOf f u = some r := by simp [okOf, hcalc]
      have herru : errOf f u = none := by simp [errOf, hcalc]
      rw [hupdate]
      refine ⟨hsv, ?_, ?_, ?_, hfe, hca, hpk', ?_⟩
      · intro h; exact hcd h
      · intro hd; exact absurd hd hph
      · intro hd; exact absurd hd hph
      · refine ⟨n, u :: settled, hok, hperm', ?_, ?_⟩
        · rw [List.filterMap_cons_some hoku]
          exact (List.perm_append_singleton _ _).trans (hres.cons _)
        · cases ph with
          | scanning =>
            obtain ⟨hscan, herr⟩ := hpa
            exact ⟨hscan, by rw [List.filterMap_cons_none herru]; exact herr⟩
          | waiting =>
            obtain ⟨hl, herr⟩ := hpa
            exact ⟨hl, by rw [List.filterMap_cons_none herru]; exact herr⟩
          | aborted =>
            obtain ⟨v, hget, hstv, herr⟩ := hpa
            exact ⟨v, hget, hstv, by rw [List.filterMap_cons_none herru]; exact herr⟩
          | done => exact absurd rfl hph
  | finalize j ts =>
    obtain ⟨n, settled, hok, hperm, hres, hpa⟩ := hacct
    obtain ⟨hlen, herr⟩ := hpa
    by_cases hfail : j.status = "failed"
    · have hs : (finalizeJob j).status = "failed" := by simp [finalizeJob, hfail]
      refine ⟨Or.inr (Or.inl hs), fun _ => rfl, ?_, fun _ => rfl, ?_,
        by simp [finalizeJob], fun w hw => absurd hw (List.not_mem_nil w),
        ⟨n, settled, hok, hperm, hres, hlen, herr⟩⟩
      · intro hd; rw [hs]; decide
      · rw [hs]
        exact iff_of_true rfl (hfe.1 hfail)
    · have hs : (finalizeJob j).status = "completed" := by simp [finalizeJob, hfail]
      have hni : j.errors = [] := by
        by_contra hne
        exact hfail (hfe.2 hne)
      refine ⟨Or.inr (Or.inr hs), fun _ => rfl, ?_, fun _ => rfl, ?_,
        by simp [finalizeJob], fun w hw => absurd hw (List.not_mem_nil w),
        ⟨n, settled, hok, hperm, hres, hlen, herr⟩⟩
      · intro hd; rw [hs]; decide
      · rw [hs]
        exact iff_of_false (by decide) (fun hne => hne hni)

/-- Every state reachable by `processJob` satisfies the master invariant. -/
theorem reaches_inv {f : FetchOracle} {vs : List Visit} {s : ProcState}
    (h : Reaches f vs s) : Inv f vs s := by
  have h' : Relation.ReflTransGen (Step f) (initState vs) s := h
  clear h
  induction h' with
  | refl => exact inv_init f vs
  | tail hab hbc ih => exact inv_step ih hbc

/-! ### Quiescence and progress -/

/-- No step leaves the `done` phase: the final block is the last action
(by then `wg.Wait()` has joined every goroutine). -/
theorem no_step_of_done {f : FetchOracle} {s s' : ProcState}
    (hd : s.phase = .done) (hstep : Step f s s') : False := by
  cases hstep with
  | scanOk j v rest pend st hst => simp at hd
  | scanFail j v rest pend hst => simp at hd
  | scanDone j pend => simp at hd
  | settle j ts l1 l2 u ph hph => exact hph hd
  | finalize j ts => simp at hd

theorem quiescent_of_done {f : FetchOracle} {s : ProcState}
    (hd : s.phase = .done) : Quiescent f s :=
  fun _ hstep => no_step_of_done hd hstep

theorem quiescent_of_aborted_nil {f : FetchOracle} {s : ProcState}
    (ha : s.phase = .aborted) (hp : s.pending = []) : Quiescent f s := by
  intro s' hstep
  cases hstep with
  | scanOk j v rest pend st hst => simp at ha
  | scanFail j v rest pend hst => simp at ha
  | scanDone j pend => simp at ha
  | settle j ts l1 l2 u ph hph => simp at hp
  | finalize j ts => simp at ha

/-- A quiescent state is either past the final block or an early-returned
(aborted) state whose straggler goroutines have all settled. -/
theorem quiescent_cases {f : FetchOracle} {s : ProcState} (hq : Quiescent f s) :
    s.phase = .done ∨ (s.phase = .aborted ∧ s.pending = []) := by
  obtain ⟨j, ts, pend, ph⟩ := s
  cases ph with
  | scanning =>
    exfalso
    cases ts with
    | nil => exact hq _ (Step.scanDone j pend)
    | cons v rest =>
      cases hst : getStore v.storeID with
      | none => exact hq _ (Step.scanFail j v rest pend hst)
      | some st => exact hq _ (Step.scanOk j v rest pend st hst)
  | waiting =>
    exfalso
    cases pend with
    | nil => exact hq _ (Step.finalize j ts)
    | cons u rest => exact hq _ (Step.settle j ts [] rest u .waiting (by decide))
  | aborted =>
    cases pend with
    | nil => exact Or.inr ⟨rfl, rfl⟩
    | cons u rest =>
      exact absurd (Step.settle j ts [] rest u .aborted (by decide)) (hq _)
  | done => exact Or.inl rfl

/-- From any point of the scan with only known stores ahead, the scan can
run to the join, dispatching every remaining unit. -/
theorem steps_scan (f : FetchOracle) (rest : List Visit) :
    ∀ (j : JobData) (pend : List ImageUnit),
      (∀ v ∈ rest, (getStore v.storeID).isSome) →
      Relation.ReflTransGen (Step f) ⟨j, rest, pend, .scanning⟩
        ⟨j, [], pend ++ allUnits rest, .waiting⟩ := by
  induction rest with
  | nil =>
    intro j pend _
    have he : (⟨j, [], pend ++ allUnits [], .waiting⟩ : ProcState) =
        ⟨j, [], pend, .waiting⟩ := by simp [allUnits]
    rw [he]
    exact Relation.ReflTransGen.single (Step.scanDone j pend)
  | cons v rest ih =>
    intro j pend hok
    obtain ⟨st, hst⟩ :=
      Option.isSome_iff_exists.1 (hok v (List.mem_cons_self v rest))
    refine Relation.ReflTransGen.head (Step.scanOk j v rest pend st hst) ?_
    have h2 := ih j (pend ++ visitUnits v)
      (fun w hw => hok w (List.mem_cons_of_mem v hw))
    have he : pend ++ visitUnits v ++ allUnits rest =
        pend ++ allUnits (v :: rest) := by
      simp [allUnits, List.append_assoc]
    rw [he] at h2
    exact h2

/-- From the join point, every pending unit can settle in order. -/
theorem steps_settle (f : FetchOracle) (pend : List ImageUnit) :
    ∀ (j : JobData) (ts : List Visit),
      Relation.ReflTransGen (Step f) ⟨j, ts, pend, .waiting⟩
        ⟨pend.foldl (fun jj u => settleUnit f u jj) j, ts, [], .waiting⟩ := by
  induction pend with
  | nil => intro j ts; exact Relation.ReflTransGen.refl
  | cons u rest ih =>
    intro j ts
    exact Relation.ReflTransGen.head
      (Step.settle j ts [] rest u .waiting (by decide)) (ih (settleUnit f u j) ts)

/-- When every store id is known, `processJob` can run to completion:
a quiescent state past the final block is reachable. -/
theorem reach_done (f : FetchOracle) (vs : List Visit)
    (hok : ∀ v ∈ vs, (getStore v.storeID).isSome) :
    ∃ s, Reaches f vs s ∧ Quiescent f s ∧ s.phase = .done := by
  refine ⟨⟨finalizeJob ((allUnits vs).foldl (fun jj u => settleUnit f u jj) initJob),
    [], [], .done⟩, ?_, quiescent_of_done rfl, rfl⟩
  exact ((steps_scan f vs initJob [] hok).trans
    (steps_settle f (allUnits vs) initJob [])).tail
    (Step.finalize _ [])

/-- A reachable quiescent state is past the final block whenever every
submitted store id is known (the abort branch is then unreachable). -/
theorem quiescent_done_of_known {f : FetchOracle} {vs : List Visit} {s : ProcState}
    (hok : ∀ v ∈ vs, (getStore v.storeID).isSome)
    (hr : Reaches f vs s) (hq : Quiescent f s) : s.phase = .done := by
  rcases quiescent_cases hq with hd | ⟨ha, -⟩
  · exact hd
  · exfalso
    obtain ⟨n, settled, hokn, hperm, hres, hpa⟩ := (reaches_inv hr).acct
    rw [ha] at hpa
    obtain ⟨v, hget, hnone, -⟩ := hpa
    have hv := hok v (List.getElem?_mem hget)
    rw [hnone] at hv
    simp at hv

/-- At the `done` phase the outcome set is complete: no unit is pending,
`CompletedAt` is set, and results/errors are exactly the outcomes of all
dispatched units. -/
theorem done_outcomes {f : FetchOracle} {vs : List Visit} {s : ProcState}
    (hr : Reaches f vs s) (hd : s.phase = .done) :
    s.pending = [] ∧ s.job.completedAtSet = true ∧
    s.job.results.Perm ((allUnits vs).filterMap (okOf f)) ∧
    s.job.errors.Perm ((allUnits vs).filterMap (errOf f)) := by
  have hinv := reaches_inv hr
  have hp := hinv.donePending hd
  obtain ⟨n, settled, hokn, hperm, hres, hpa⟩ := hinv.acct
  rw [hd] at hpa
  obtain ⟨hlen, herr⟩ := hpa
  rw [hp, List.append_nil, hlen, List.take_length] at hperm
  exact ⟨hp, hinv.completedAtPhase.2 (Or.inr hd), hres.trans (hperm.filterMap _),
    herr.trans (hperm.filterMap _)⟩

/-! ### Evaluating unit outcomes -/

/-- When the store exists, `calculateImagePerimeter` is exactly its
post-lookup body: the unknown-store branch is not taken. -/
theorem calc_eq_withStore {f : FetchOracle} {sid : String} {st : Store}
    (url : String) (hst : getStore sid = some st) :
    calculateImagePerimeter f sid url = perimeterWithStore f st url := by
  unfold calculateImagePerimeter
  rw [hst]
  rfl

/-- Known store plus successful fetch yields the expected result record. -/
theorem calc_ok_parts {f : FetchOracle} {sid url : String} {st : Store}
    {w h : Nat} (hst : getStore sid = some st) (hf : f url = .ok (w, h)) :
    calculateImagePerimeter f sid url =
      .ok ⟨st.storeID, st.storeName, st.areaCode, url, w, h, 2 * (w + h)⟩ := by
  rw [calc_eq_withStore url hst]
  unfold perimeterWithStore
  rw [hf]

/-- The `ImageResult` a known-store, successful-fetch unit records
(junk default on the failure branches, which the hypotheses exclude). -/
def expectedResult (f : FetchOracle) (u : ImageUnit) : ImageResult :=
  match calculateImagePerimeter f u.1 u.2 with
  | .ok r => r
  | .error _ => ⟨"", "", "", "", 0, 0, 0⟩

theorem calc_ok_of_known_ok {f : FetchOracle} {u : ImageUnit}
    (hst : (getStore u.1).isSome) (hf : ∃ p, f u.2 = Except.ok p) :
    ∃ r, calculateImagePerimeter f u.1 u.2 = .ok r := by
  obtain ⟨st, hst'⟩ := Option.isSome_iff_exists.1 hst
  obtain ⟨⟨w, h⟩, hp⟩ := hf
  exact ⟨_, calc_ok_parts hst' hp⟩

theorem filterMap_okOf_of_all_ok {f : FetchOracle} :
    ∀ {l : List ImageUnit},
      (∀ u ∈ l, (getStore u.1).isSome) →
      (∀ u ∈ l, ∃ p, f u.2 = Except.ok p) →
      l.filterMap (okOf f) = l.map (expectedResult f) ∧
        l.filterMap (errOf f) = [] := by
  intro l
  induction l with
  | nil => intro _ _; exact ⟨rfl, rfl⟩
  | cons u rest ih =>
    intro hst hf
    obtain ⟨r, hr⟩ := calc_ok_of_known_ok (hst u (List.mem_cons_self u rest))
      (hf u (List.mem_cons_self u rest))
    obtain ⟨ih1, ih2⟩ := ih (fun w hw => hst w (List.mem_cons_of_mem u hw))
      (fun w hw => hf w (List.mem_cons_of_mem u hw))
    constructor
    · rw [List.filterMap_cons_some (show okOf f u = some r by simp [okOf, hr]),
        ih1, List.map_cons]
      congr 1
      simp [expectedResult, hr]
    · rw [List.filterMap_cons_none (show errOf f u = none by simp [errOf, hr]), ih2]

/-! ### HTTP handler models -/

/-- A submission payload as seen by `handleSubmitJob`'s `json.Decoder`
with `DisallowUnknownFields`: `decodeOk` is false when the body is not
well-formed for the schema, `hasUnknownField` when the payload carries an
unrecognized field (strict schema). -/
structure RawPayload where
  decodeOk : Bool
  hasUnknownField : Bool
  count : Int
  visits : List Visit
deriving Repr, DecidableEq

/-- `decoder.Decode(&req)` under `DisallowUnknownFields` (main.go 229-231). -/
def decodeSubmit (p : RawPayload) : Option SubmitJobRequest :=
  if p.decodeOk && !p.hasUnknownField then some ⟨p.count, p.visits⟩ else none

/-- Outcome of `handleSubmitJob`: either a 400 rejection (issued before
any job exists) or a created job with `processJob` launched on the
submitted visits. -/
inductive SubmitOutcome where
  | rejected (message : String)
  | created (job : JobData) (visits : List Visit)
deriving Repr, DecidableEq

/-- main.go `handleSubmitJob` (POST path): decode and validate, then
create the job (status "ongoing") and launch processing asynchronously. -/
def handleSubmitJob (p : RawPayload) : SubmitOutcome :=
  match decodeSubmit p with
  | none => .rejected "Invalid request payload"
  | some req =>
    if req.count = 0 ∧ req.visits.length > 0 then .rejected "Invalid request payload"
    else if req.count ≠ (req.visits.length : Int) then
      .rejected "Count does not match number of visits"
    else .created initJob req.visits

/-- Wire shape of the status response (main.go `JobStatusResponse`).
`errorsField = []` corresponds to the `error` key being absent from the
emitted JSON (`omitempty` omits nil and empty slices alike). -/
structure JobStatusResponse where
  status : String
  jobID : String
  errorsField : List StoreError
deriving Repr, DecidableEq

/-- main.go `handleJobStatus` for an existing job: the `Errors` field is
populated only when the job's status is "failed" (main.go 296-306). -/
def handleJobStatus (jobID : Nat) (job : JobData) : JobStatusResponse :=
  { status := job.status, jobID := toString jobID,
    errorsField := if job.status = "failed" then job.errors else [] }

/-! ### Claim C1 -/

/-- **C1.** For every submission in which every visit's store id is present
in the store directory and every image fetch succeeds, `processJob` drives
the job to terminal status "completed" (every complete run ends in the
`done` phase with that status), and the job's results list contains exactly
one `ImageResult` per submitted image URL — it is a permutation of the
expected per-unit results, and its URL multiset equals the submitted URL
multiset — each with perimeter `2 * (width + height)` of the decoded image. -/
theorem c1_all_ok_completed (f : FetchOracle) (vs : List Visit)
    (hstores : ∀ v ∈ vs, (getStore v.storeID).isSome)
    (hfetch : ∀ u ∈ allUnits vs, ∃ p, f u.2 = Except.ok p)
    (s : ProcState) (hr : Reaches f vs s) (hq : Quiescent f s) :
    s.job.status = "completed" ∧
    s.job.errors = [] ∧
    s.job.results.Perm ((allUnits vs).map (expectedResult f)) ∧
    (s.job.results.map (fun r => r.imageURL)).Perm
      ((allUnits vs).map (fun u => u.2)) ∧
    ∀ r ∈ s.job.results, r.perimeter = 2 * (r.width + r.height) := by
  have hustores : ∀ u ∈ allUnits vs, (getStore u.1).isSome := by
    intro u hu
    obtain ⟨v, hv, hid⟩ := mem_allUnits_exists hu
    rw [hid]
    exact hstores v hv
  obtain ⟨hmapok, hmaperr⟩ := filterMap_okOf_of_all_ok hustores hfetch
  have hd := quiescent_done_of_known hstores hr hq
  obtain ⟨-, -, hres, herr⟩ := done_outcomes hr hd
  rw [hmaperr] at herr
  have herrnil : s.job.errors = [] := herr.eq_nil
  have hinv := reaches_inv hr
  have hstatus : s.job.status = "completed" := by
    rcases hinv.statusVals with h | h | h
    · exact absurd h (hinv.doneNotOngoing hd)
    · exact absurd herrnil (hinv.failedIffErrors.1 h)
    · exact h
  rw [hmapok] at hres
  refine ⟨hstatus, herrnil, hres, ?_, ?_⟩
  · refine (hres.map (fun r => r.imageURL)).trans ?_
    rw [List.map_map]
    have heq : (allUnits vs).map ((fun r => r.imageURL) ∘ expectedResult f) =
        (allUnits vs).map (fun u => u.2) :=
      List.map_congr_left (by
        intro u hu
        obtain ⟨st, hst'⟩ := Option.isSome_iff_exists.1 (hustores u hu)
        obtain ⟨⟨w, h⟩, hp⟩ := hfetch u hu
        simp [Function.comp, expectedResult, calc_ok_parts hst' hp])
    rw [heq]
  · intro r hrmem
    obtain ⟨u, hu, hru⟩ := List.mem_map.1 (hres.mem_iff.1 hrmem)
    obtain ⟨st, hst'⟩ := Option.isSome_iff_exists.1 (hustores u hu)
    obtain ⟨⟨w, h⟩, hp⟩ := hfetch u hu
    rw [← hru]
    simp [expectedResult, calc_ok_parts hst' hp]

/-- The spec's concrete scenario: one visit to store `S00339218` with one
image that decodes to 100×50. -/
def visitA : Visit := ⟨"S00339218", ["u1"], "t"⟩

/-- Fetch oracle where every URL decodes to a 100×50 image. -/
def fetch100 : FetchOracle := fun _ => .ok (100, 50)

/-- Final state of the run on `[visitA]` under `fetch100`. -/
def stateC1 : ProcState :=
  ⟨⟨"completed", [⟨"S00339218", "Store A", "NYC", "u1", 100, 50, 300⟩], [], true⟩,
   [], [], .done⟩

theorem reach_stateC1 : Reaches fetch100 [visitA] stateC1 :=
  Relation.ReflTransGen.head
    (Step.scanOk initJob visitA [] [] ⟨"S00339218", "Store A", "NYC"⟩ rfl)
    (Relation.ReflTransGen.head (Step.scanDone initJob (visitUnits visitA))
      (Relation.ReflTransGen.head
        (Step.settle initJob [] [] [] ("S00339218", "u1") .waiting (by decide))
        (Relation.ReflTransGen.single
          (Step.finalize (settleUnit fetch100 ("S00339218", "u1") initJob) []))))

/-- Witness for C1 at the spec's concrete scenario: 100×50 image gives
perimeter 300 and the job completes. -/
theorem c1_all_ok_completed_witness :
    stateC1.job.status = "completed" ∧
    stateC1.job.errors = [] ∧
    stateC1.job.results.Perm ((allUnits [visitA]).map (expectedResult fetch100)) ∧
    (stateC1.job.results.map (fun r => r.imageURL)).Perm
      ((allUnits [visitA]).map (fun u => u.2)) ∧
    ∀ r ∈ stateC1.job.results, r.perimeter = 2 * (r.width + r.height) :=
  c1_all_ok_completed fetch100 [visitA]
    (by
      intro v hv
      rw [List.mem_singleton.1 hv]
      rfl)
    (fun u _ => ⟨(100, 50), rfl⟩)
    stateC1 reach_stateC1 (quiescent_of_done rfl)

/-! ### Claim C5 -/

/-- **C5.** For every submission in which every store id is known but at
least one image fetch fails, the job reaches terminal status "failed";
its errors list contains exactly one `StoreError` per failed image and its
results list exactly one `ImageResult` per succeeded image (stated as
permutations of the per-unit outcome lists over all dispatched units), so
a failed fetch does not prevent sibling units of the same job from
recording their results. -/
theorem c5_partial_failure (f : FetchOracle) (vs : List Visit)
    (hstores : ∀ v ∈ vs, (getStore v.storeID).isSome)
    (hfail : ∃ u ∈ allUnits vs, ∃ e, f u.2 = Except.error e)
    (s : ProcState) (hr : Reaches f vs s) (hq : Quiescent f s) :
    s.job.status = "failed" ∧
    s.job.errors.Perm ((allUnits vs).filterMap (errOf f)) ∧
    s.job.results.Perm ((allUnits vs).filterMap (okOf f)) := by
  have hd := quiescent_done_of_known hstores hr hq
  obtain ⟨-, -, hres, herr⟩ := done_outcomes hr hd
  obtain ⟨u, hu, e, he⟩ := hfail
  have hust : (getStore u.1).isSome := by
    obtain ⟨v, hv, hid⟩ := mem_allUnits_exists hu
    rw [hid]
    exact hstores v hv
  obtain ⟨st, hst'⟩ := Option.isSome_iff_exists.1 hust
  have hcalc : calculateImagePerimeter f u.1 u.2 = .error e := by
    rw [calc_eq_withStore u.2 hst']
    unfold perimeterWithStore
    rw [he]
  have hmem : (⟨u.1, e⟩ : StoreError) ∈ (allUnits vs).filterMap (errOf f) :=
    List.mem_filterMap.2 ⟨u, hu, by simp [errOf, hcalc]⟩
  have hne : s.job.errors ≠ [] := by
    intro hnil
    rw [hnil] at herr
    rw [← herr.nil_eq] at hmem
    exact absurd hmem (List.not_mem_nil _)
  exact ⟨(reaches_inv hr).failedIffErrors.2 hne, herr, hres⟩

/-- One visit with one succeeding and one failing image fetch. -/
def visitMixed : Visit := ⟨"S00339218", ["good", "bad"], "t"⟩

/-- Oracle where only URL "good" decodes (to 2×3); others get a download
error message. -/
def fetchMixed : FetchOracle := fun url =>
  if url = "good" then .ok (2, 3)
  else .error "error downloading image: status code 404"

/-- Final state of the run on `[visitMixed]` under `fetchMixed`, settling
"good" before "bad". -/
def stateC5 : ProcState :=
  ⟨⟨"failed", [⟨"S00339218", "Store A", "NYC", "good", 2, 3, 10⟩],
    [⟨"S00339218", "error downloading image: status code 404"⟩], true⟩,
   [], [], .done⟩

theorem reach_stateC5 : Reaches fetchMixed [visitMixed] stateC5 :=
  Relation.ReflTransGen.head
    (Step.scanOk initJob visitMixed [] [] ⟨"S00339218", "Store A", "NYC"⟩ rfl)
    (Relation.ReflTransGen.head (Step.scanDone initJob (visitUnits visitMixed))
      (Relation.ReflTransGen.head
        (Step.settle initJob [] [] [("S00339218", "bad")] ("S00339218", "good")
          .waiting (by decide))
        (Relation.ReflTransGen.head
          (Step.settle (settleUnit fetchMixed ("S00339218", "good") initJob)
            [] [] [] ("S00339218", "bad") .waiting (by decide))
          (Relation.ReflTransGen.single
            (Step.finalize (settleUnit fetchMixed ("S00339218", "bad")
              (settleUnit fetchMixed ("S00339218", "good") initJob)) [])))))

/-- Witness for C5: with one failing and one succeeding image the run
ends "failed" with both the error entry and the sibling's result. -/
theorem c5_partial_failure_witness :
    stateC5.job.status = "failed" ∧
    stateC5.job.errors.Perm ((allUnits [visitMixed]).filterMap (errOf fetchMixed)) ∧
    stateC5.job.results.Perm ((allUnits [visitMixed]).filterMap (okOf fetchMixed)) :=
  c5_partial_failure fetchMixed [visitMixed]
    (by
      intro v hv
      rw [List.mem_singleton.1 hv]
      rfl)
    ⟨("S00339218", "bad"), by decide,
      "error downloading image: status code 404", rfl⟩
    stateC5 reach_stateC5 (quiescent_of_done rfl)

/-! ### Claim C2 -/

theorem errOf_storeID {f : FetchOracle} {u : ImageUnit} {e : StoreError}
    (h : errOf f u = some e) : e.storeID = u.1 := by
  unfold errOf at h
  cases hc : calculateImagePerimeter f u.1 u.2 with
  | error msg =>
    rw [hc] at h
    injection h with h2
    rw [← h2]
  | ok r =>
    rw [hc] at h
    simp at h

/-- **C2.** For every submission containing at least one visit whose store
id is absent from the store directory (first such visit at index `k`, all
earlier stores known), `processJob` marks the job "failed" at that visit,
appends exactly one `StoreError` with message "Store ID does not exist"
for that store id, sets `completedAt`, and stops scanning: in every
reachable state, pending and recorded outcomes only ever involve units of
visits strictly before index `k` — no image of any later visit is
dispatched or processed — and every complete run ends in the aborted
state, "failed", with that error appearing exactly once. -/
theorem c2_unknown_store_short_circuit (f : FetchOracle) (vs : List Visit)
    (k : Nat) (vk : Visit)
    (hk : vs[k]? = some vk)
    (hunk : getStore vk.storeID = none)
    (hpre : ∀ v ∈ vs.take k, (getStore v.storeID).isSome)
    (s : ProcState) (hr : Reaches f vs s) :
    (∀ u ∈ s.pending, u ∈ allUnits (vs.take k)) ∧
    (∀ r ∈ s.job.results, ∃ u ∈ allUnits (vs.take k), okOf f u = some r) ∧
    (∀ e ∈ s.job.errors,
      e = ⟨vk.storeID, "Store ID does not exist"⟩ ∨
      ∃ u ∈ allUnits (vs.take k), errOf f u = some e) ∧
    (Quiescent f s →
      s.phase = .aborted ∧
      s.job.status = "failed" ∧
      s.job.completedAtSet = true ∧
      s.job.errors.count ⟨vk.storeID, "Store ID does not exist"⟩ = 1) := by
  have hinv := reaches_inv hr
  obtain ⟨n, settled, hokn, hperm, hres, hpa⟩ := hinv.acct
  have hklen : k < vs.length := (List.getElem?_eq_some_iff.1 hk).1
  have hnk : n ≤ k := by
    by_contra hlt
    have hklt : k < n := Nat.lt_of_not_le hlt
    have hgm : (vs.take n)[k]? = some vk := by
      rw [List.getElem?_take, if_pos hklt]
      exact hk
    have hmemk : vk ∈ vs.take n := List.getElem?_mem hgm
    have hsm := hokn vk hmemk
    rw [hunk] at hsm
    simp at hsm
  have hsplit : allUnits (vs.take n) ++ allUnits ((vs.drop n).take (k - n)) =
      allUnits (vs.take k) := by
    rw [← allUnits_append, ← List.take_add, Nat.add_sub_cancel' hnk]
  have hsub : ∀ u ∈ settled ++ s.pending, u ∈ allUnits (vs.take k) := by
    intro u hu
    exact hsplit ▸ List.mem_append_left _ (hperm.mem_iff.1 hu)
  have hpendsub : ∀ u ∈ s.pending, u ∈ allUnits (vs.take k) :=
    fun u hu => hsub u (List.mem_append_right _ hu)
  have hressub : ∀ r ∈ s.job.results,
      ∃ u ∈ allUnits (vs.take k), okOf f u = some r := by
    intro r hrm
    obtain ⟨u, hu, hoku⟩ := List.mem_filterMap.1 (hres.mem_iff.1 hrm)
    exact ⟨u, hsub u (List.mem_append_left _ hu), hoku⟩
  have hsetknown : ∀ e ∈ settled.filterMap (errOf f),
      e ≠ ⟨vk.storeID, "Store ID does not exist"⟩ := by
    intro e hem heq
    obtain ⟨u, hu, herru⟩ := List.mem_filterMap.1 hem
    obtain ⟨v, hv, hid2⟩ := mem_allUnits_exists (hsub u (List.mem_append_left _ hu))
    have hkn := hpre v hv
    rw [← hid2, ← errOf_storeID herru, heq] at hkn
    simp [hunk] at hkn
  cases hph : s.phase with
  | scanning =>
    rw [hph] at hpa
    obtain ⟨-, herrp⟩ := hpa
    refine ⟨hpendsub, hressub, ?_, ?_⟩
    · intro e he
      obtain ⟨u, hu, herru⟩ := List.mem_filterMap.1 (herrp.mem_iff.1 he)
      exact Or.inr ⟨u, hsub u (List.mem_append_left _ hu), herru⟩
    · intro hq
      rcases quiescent_cases hq with hd | ⟨ha, -⟩
      · rw [hph] at hd; exact absurd hd (by decide)
      · rw [hph] at ha; exact absurd ha (by decide)
  | waiting =>
    rw [hph] at hpa
    obtain ⟨hlen, -⟩ := hpa
    exact absurd hklen (Nat.not_lt.2 (hlen ▸ hnk))
  | done =>
    rw [hph] at hpa
    obtain ⟨hlen, -⟩ := hpa
    exact absurd hklen (Nat.not_lt.2 (hlen ▸ hnk))
  | aborted =>
    rw [hph] at hpa
    obtain ⟨v, hget, hnone, herrp⟩ := hpa
    have hneq : n = k := by
      rcases Nat.lt_or_ge n k with hlt | hge
      · have hgm2 : (vs.take k)[n]? = some v := by
          rw [List.getElem?_take, if_pos hlt]
          exact hget
        have hmemv : v ∈ vs.take k := List.getElem?_mem hgm2
        have hsm := hpre v hmemv
        rw [hnone] at hsm
        simp at hsm
      · exact Nat.le_antisymm hnk hge
    subst hneq
    have hveq : v = vk := by
      rw [hget] at hk
      injection hk
    subst hveq
    refine ⟨hpendsub, hressub, ?_, ?_⟩
    · intro e he
      rcases List.mem_append.1 (herrp.mem_iff.1 he) with hm | hm
      · obtain ⟨u, hu, herru⟩ := List.mem_filterMap.1 hm
        exact Or.inr ⟨u, hsub u (List.mem_append_left _ hu), herru⟩
      · exact Or.inl (List.mem_singleton.1 hm)
    · intro hq
      refine ⟨rfl, ?_, hinv.completedAtPhase.2 (Or.inl hph), ?_⟩
      · apply hinv.failedIffErrors.2
        intro hnil
        rw [hnil] at herrp
        have hcontra := herrp.nil_eq
        simp at hcontra
      · rw [herrp.count_eq, List.count_append]
        have hzero : (settled.filterMap (errOf f)).count
            (⟨v.storeID, "Store ID does not exist"⟩ : StoreError) = 0 :=
          List.count_eq_zero.2 (fun hm => hsetknown _ hm rfl)
        rw [hzero, List.count_singleton_self]

/-- The spec's unknown-store scenario: a single visit to "UNKNOWN". -/
def visitUnknown : Visit := ⟨"UNKNOWN", [], "t"⟩

/-- State after the abort on `[visitUnknown]`. -/
def stateC2 : ProcState :=
  ⟨⟨"failed", [], [⟨"UNKNOWN", "Store ID does not exist"⟩], true⟩,
   [], [], .aborted⟩

theorem reach_stateC2 : Reaches fetch100 [visitUnknown] stateC2 :=
  Relation.ReflTransGen.single (Step.scanFail initJob visitUnknown [] [] rfl)

/-- Witness for C2 at the spec's scenario `store_id = "UNKNOWN"`. -/
theorem c2_unknown_store_short_circuit_witness :
    (∀ u ∈ stateC2.pending, u ∈ allUnits ([visitUnknown].take 0)) ∧
    (∀ r ∈ stateC2.job.results,
      ∃ u ∈ allUnits ([visitUnknown].take 0), okOf fetch100 u = some r) ∧
    (∀ e ∈ stateC2.job.errors,
      e = ⟨visitUnknown.storeID, "Store ID does not exist"⟩ ∨
      ∃ u ∈ allUnits ([visitUnknown].take 0), errOf fetch100 u = some e) ∧
    (Quiescent fetch100 stateC2 →
      stateC2.phase = .aborted ∧
      stateC2.job.status = "failed" ∧
      stateC2.job.completedAtSet = true ∧
      stateC2.job.errors.count ⟨visitUnknown.storeID, "Store ID does not exist"⟩ = 1) :=
  c2_unknown_store_short_circuit fetch100 [visitUnknown] 0 visitUnknown rfl rfl
    (by intro v hv; simp at hv) stateC2 reach_stateC2

/-! ### Claims C3 and C4 -/

/-- Two-visit scenario — a known store with one image, then an unknown
store — used to exhibit mutation after the terminal status. -/
def visitBadStore : Visit := ⟨"BAD", [], "t"⟩

def cexVisits : List Visit := [visitA, visitBadStore]

/-- State right after the unknown-store abort: status "failed" and
`CompletedAt` set while the first visit's unit is still in flight. -/
def stateAborted : ProcState :=
  ⟨⟨"failed", [], [⟨"BAD", "Store ID does not exist"⟩], true⟩, [],
   [("S00339218", "u1")], .aborted⟩

/-- State after the in-flight unit settles, appending its result. -/
def stateSettled : ProcState :=
  ⟨⟨"failed", [⟨"S00339218", "Store A", "NYC", "u1", 100, 50, 300⟩],
    [⟨"BAD", "Store ID does not exist"⟩], true⟩, [], [], .aborted⟩

theorem reach_stateAborted : Reaches fetch100 cexVisits stateAborted :=
  Relation.ReflTransGen.head
    (Step.scanOk initJob visitA [visitBadStore] [] ⟨"S00339218", "Store A", "NYC"⟩ rfl)
    (Relation.ReflTransGen.single
      (Step.scanFail initJob visitBadStore [] (visitUnits visitA) rfl))

theorem step_aborted_settles : Step fetch100 stateAborted stateSettled :=
  Step.settle ⟨"failed", [], [⟨"BAD", "Store ID does not exist"⟩], true⟩
    [] [] [] ("S00339218", "u1") .aborted (by decide)

/-- **C3 counterexample.** A reachable state with terminal status
"failed" from which a further step (an in-flight unit settling) changes
the results list: a later status poll observes a different triple. -/
theorem c3_counterexample :
    Reaches fetch100 cexVisits stateAborted ∧
    stateAborted.job.status = "failed" ∧
    Step fetch100 stateAborted stateSettled ∧
    stateAborted.job.results = [] ∧
    stateSettled.job.results ≠ [] ∧
    stateSettled.job.status = "failed" :=
  ⟨reach_stateAborted, rfl, step_aborted_settles, rfl, by decide, rfl⟩

theorem step_keeps_failed {f : FetchOracle} {a b : ProcState}
    (hstep : Step f a b) (hf : a.job.status = "failed") :
    b.job.status = "failed" := by
  cases hstep with
  | scanOk j v rest pend st hst => exact hf
  | scanFail j v rest pend hst => rfl
  | scanDone j pend => exact hf
  | settle j ts l1 l2 u ph hph =>
    cases hc : calculateImagePerimeter f u.1 u.2 with
    | error e => simp [settleUnit, hc]
    | ok r =>
      simp only [settleUnit, hc]
      exact hf
  | finalize j ts =>
    have hf' : j.status = "failed" := hf
    simp [finalizeJob, hf']

/-- **C3 (amended).** Once a job reaches a terminal status, the status
value itself never changes again, and once the status is "completed" the
entire state is frozen.  (The claim's stronger form — that results and
errors also never change after any terminal status — is false: after a
"failed" status, in-flight units keep appending until they settle; see
the counterexample.) -/
theorem c3_amended_status_stable (f : FetchOracle) (vs : List Visit)
    (s s' : ProcState) (hr : Reaches f vs s)
    (hs : Relation.ReflTransGen (Step f) s s') :
    (s.job.status = "failed" → s'.job.status = "failed") ∧
    (s.job.status = "completed" → s' = s) := by
  constructor
  · intro hf
    induction hs with
    | refl => exact hf
    | tail hab hbc ih => exact step_keeps_failed hbc ih
  · intro hc
    have hd := (reaches_inv hr).completedDone hc
    induction hs with
    | refl => rfl
    | tail hab hbc ih => exact ((no_step_of_done hd (ih ▸ hbc)).elim)

/-- Witness for the amended C3: one settle step out of the failed
aborted state keeps the status "failed". -/
theorem c3_amended_status_stable_witness :
    (stateAborted.job.status = "failed" → stateSettled.job.status = "failed") ∧
    (stateAborted.job.status = "completed" → stateSettled = stateAborted) :=
  c3_amended_status_stable fetch100 cexVisits stateAborted stateSettled
    reach_stateAborted (Relation.ReflTransGen.single step_aborted_settles)

/-- **C4 counterexample.** At the moment the job reaches its terminal
status via the unknown-store abort, `CompletedAt` is already set although
a dispatched unit is still pending, and that unit's (successful) outcome
is recorded nowhere in the job yet. -/
theorem c4_counterexample :
    Reaches fetch100 cexVisits stateAborted ∧
    stateAborted.job.status = "failed" ∧
    stateAborted.job.completedAtSet = true ∧
    stateAborted.pending = [("S00339218", "u1")] ∧
    calculateImagePerimeter fetch100 "S00339218" "u1" =
      .ok ⟨"S00339218", "Store A", "NYC", "u1", 100, 50, 300⟩ ∧
    stateAborted.job.results = [] :=
  ⟨reach_stateAborted, rfl, rfl, rfl, rfl, rfl⟩

/-- **C4 (amended).** When the final join completes (phase `done`, the
non-aborted path), the outcome set is complete: nothing is pending,
`completedAt` is set, and results/errors contain exactly one outcome per
dispatched unit.  (Per the counterexample, the original claim fails on
the unknown-store short-circuit, where `completedAt` is set and the
status turns terminal while earlier-dispatched units are still in
flight.) -/
theorem c4_amended_join_outcomes (f : FetchOracle) (vs : List Visit)
    (s : ProcState) (hr : Reaches f vs s) (hd : s.phase = .done) :
    s.pending = [] ∧ s.job.completedAtSet = true ∧
    s.job.results.Perm ((allUnits vs).filterMap (okOf f)) ∧
    s.job.errors.Perm ((allUnits vs).filterMap (errOf f)) :=
  done_outcomes hr hd

theorem c4_amended_join_outcomes_witness :
    stateC1.pending = [] ∧ stateC1.job.completedAtSet = true ∧
    stateC1.job.results.Perm ((allUnits [visitA]).filterMap (okOf fetch100)) ∧
    stateC1.job.errors.Perm ((allUnits [visitA]).filterMap (errOf fetch100)) :=
  c4_amended_join_outcomes fetch100 [visitA] stateC1 reach_stateC1 rfl

/-! ### Claim C6 -/

/-- **C6.** The submit handler rejects, synchronously and before any job
is created, every payload whose `count` field differs from the number of
visits, every payload with `count` zero and a non-empty visits list, and
every payload containing an unrecognized field; for every such rejected
submission no `Job` entity is ever created (the handler returns a
rejection, never a `created` outcome). -/
theorem c6_validation_rejects (p : RawPayload)
    (h : p.hasUnknownField = true ∨ (p.count = 0 ∧ p.visits ≠ []) ∨
      p.count ≠ (p.visits.length : Int)) :
    ∃ msg, handleSubmitJob p = .rejected msg ∧
      ∀ j vsj, handleSubmitJob p ≠ .created j vsj := by
  obtain ⟨dok, hunf, cnt, vsp⟩ := p
  cases hunf with
  | true =>
    exact ⟨"Invalid request payload", by simp [handleSubmitJob, decodeSubmit],
      by simp [handleSubmitJob, decodeSubmit]⟩
  | false =>
    cases dok with
    | false =>
      exact ⟨"Invalid request payload", by simp [handleSubmitJob, decodeSubmit],
        by simp [handleSubmitJob, decodeSubmit]⟩
    | true =>
      rcases h with h | ⟨h0, hne⟩ | hcl
      · simp at h
      · have h0' : cnt = 0 := h0
        have hne' : vsp ≠ [] := hne
        subst h0'
        have hpos : vsp.length > 0 := List.length_pos.2 hne'
        exact ⟨"Invalid request payload",
          by simp [handleSubmitJob, decodeSubmit, hpos],
          by simp [handleSubmitJob, decodeSubmit, hpos]⟩
      · by_cases h0 : cnt = 0 ∧ vsp.length > 0
        · exact ⟨"Invalid request payload",
            by simp [handleSubmitJob, decodeSubmit, h0],
            by simp [handleSubmitJob, decodeSubmit, h0]⟩
        · refine ⟨"Count does not match number of visits", ?_, ?_⟩ <;>
            simp [handleSubmitJob, decodeSubmit, h0, hcl]

/-- Witness for C6: a payload with an unrecognized field is rejected. -/
theorem c6_validation_rejects_witness :
    ∃ msg, handleSubmitJob ⟨true, true, 1, []⟩ = .rejected msg ∧
      ∀ j vsj, handleSubmitJob ⟨true, true, 1, []⟩ ≠ .created j vsj :=
  c6_validation_rejects ⟨true, true, 1, []⟩ (Or.inl rfl)

/-! ### Claim C7 -/

/-- **C7.** For every reachable job state, the status-query response
carries the error list iff the job's status is "failed"; when the status
is "completed" or "ongoing" the response consists of the status and the
job id only, with the `error` key omitted (`errorsField = []`, which
`omitempty` drops from the JSON). -/
theorem c7_errors_iff_failed (f : FetchOracle) (vs : List Visit)
    (s : ProcState) (hr : Reaches f vs s) (jobID : Nat) :
    ((handleJobStatus jobID s.job).errorsField ≠ [] ↔ s.job.status = "failed") ∧
    (s.job.status ≠ "failed" →
      handleJobStatus jobID s.job = ⟨s.job.status, toString jobID, []⟩) := by
  have hfe := (reaches_inv hr).failedIffErrors
  constructor
  · constructor
    · intro hne
      by_contra hnf
      simp [handleJobStatus, hnf] at hne
    · intro hf
      simp only [handleJobStatus, if_pos hf]
      exact hfe.1 hf
  · intro hnf
    simp [handleJobStatus, hnf]

/-- Witness for C7 at a reachable "failed" job: the error list is
present, and the iff holds. -/
theorem c7_errors_iff_failed_witness :
    ((handleJobStatus 1 stateAborted.job).errorsField ≠ [] ↔
      stateAborted.job.status = "failed") ∧
    (stateAborted.job.status ≠ "failed" →
      handleJobStatus 1 stateAborted.job =
        ⟨stateAborted.job.status, toString 1, []⟩) :=
  c7_errors_iff_failed fetch100 cexVisits stateAborted reach_stateAborted 1

/-! ### Claim C8 -/

/-- **C8.** In every reachable job state, status "completed" implies the
errors list is empty, and status "failed" implies it is non-empty: every
mutation that sets "failed" appends an error in the same atomic step, and
"completed" is only set when the job never failed. -/
theorem c8_status_errors_invariant (f : FetchOracle) (vs : List Visit)
    (s : ProcState) (hr : Reaches f vs s) :
    (s.job.status = "completed" → s.job.errors = []) ∧
    (s.job.status = "failed" → s.job.errors ≠ []) := by
  have hfe := (reaches_inv hr).failedIffErrors
  constructor
  · intro hc
    by_contra hne
    have hf := hfe.2 hne
    rw [hc] at hf
    exact absurd hf (by decide)
  · exact hfe.1

theorem c8_status_errors_invariant_witness :
    (stateC1.job.status = "completed" → stateC1.job.errors = []) ∧
    (stateC1.job.status = "failed" → stateC1.job.errors ≠ []) :=
  c8_status_errors_invariant fetch100 [visitA] stateC1 reach_stateC1

/-! ### Claim C9 -/

/-- **C9.** For every dispatched (pending) unit in every reachable state,
the store id was verified before dispatch, and — the store master being
an immutable map, read-only during processing — the second lookup inside
`calculateImagePerimeter` succeeds again: the unknown-store error branch
is unreachable for that unit and the call equals its post-lookup body. -/
theorem c9_second_lookup_succeeds (f : FetchOracle) (vs : List Visit)
    (s : ProcState) (hr : Reaches f vs s) (u : ImageUnit) (hu : u ∈ s.pending) :
    ∃ st, getStore u.1 = some st ∧
      calculateImagePerimeter f u.1 u.2 = perimeterWithStore f st u.2 := by
  obtain ⟨st, hst⟩ :=
    Option.isSome_iff_exists.1 ((reaches_inv hr).pendingKnown u hu)
  exact ⟨st, hst, calc_eq_withStore u.2 hst⟩

/-- State with a dispatched unit, right after scanning the first visit. -/
def stateC9 : ProcState := ⟨initJob, [], [("S00339218", "u1")], .scanning⟩

theorem reach_stateC9 : Reaches fetch100 [visitA] stateC9 :=
  Relation.ReflTransGen.single
    (Step.scanOk initJob visitA [] [] ⟨"S00339218", "Store A", "NYC"⟩ rfl)

theorem c9_second_lookup_succeeds_witness :
    ∃ st, getStore "S00339218" = some st ∧
      calculateImagePerimeter fetch100 "S00339218" "u1" =
        perimeterWithStore fetch100 st "u1" :=
  c9_second_lookup_succeeds fetch100 [visitA] stateC9 reach_stateC9
    ("S00339218", "u1") (List.mem_singleton.2 rfl)

/-! ### Claim C10 -/

/-- Intermediate state of the run on an empty submission: at the join. -/
def emptyWaiting : ProcState := ⟨initJob, [], [], .waiting⟩

/-- Final state of the run on an empty submission. -/
def emptyDone : ProcState := ⟨⟨"completed", [], [], true⟩, [], [], .done⟩

/-- Coarse source/target classification of a step, with the source state
kept abstract (used to invert steps out of concrete states). -/
theorem step_src_cases {f : FetchOracle} {s s' : ProcState}
    (hstep : Step f s s') :
    s.pending ≠ [] ∨
    (s.phase = .scanning ∧ s.toScan ≠ []) ∨
    (s.phase = .scanning ∧ s.toScan = [] ∧
      s' = ⟨s.job, [], s.pending, .waiting⟩) ∨
    (s.phase = .waiting ∧ s' = ⟨finalizeJob s.job, s.toScan, [], .done⟩) := by
  cases hstep with
  | scanOk j v rest pend st hst => exact Or.inr (Or.inl ⟨rfl, by simp⟩)
  | scanFail j v rest pend hst => exact Or.inr (Or.inl ⟨rfl, by simp⟩)
  | scanDone j pend => exact Or.inr (Or.inr (Or.inl ⟨rfl, rfl, rfl⟩))
  | settle j ts l1 l2 u ph hph => exact Or.inl (by simp)
  | finalize j ts => exact Or.inr (Or.inr (Or.inr ⟨rfl, rfl⟩))

theorem reach_nil_cases {f : FetchOracle} {s : ProcState}
    (hr : Relation.ReflTransGen (Step f) ⟨initJob, [], [], .scanning⟩ s) :
    s = ⟨initJob, [], [], .scanning⟩ ∨ s = emptyWaiting ∨ s = emptyDone := by
  induction hr with
  | refl => exact Or.inl rfl
  | tail hab hbc ih =>
    rcases ih with rfl | rfl | rfl
    · rcases step_src_cases hbc with hp | ⟨-, hts⟩ | ⟨-, -, hs'⟩ | ⟨hph, -⟩
      · exact absurd rfl hp
      · exact absurd rfl hts
      · exact Or.inr (Or.inl hs')
      · simp at hph
    · rcases step_src_cases hbc with hp | ⟨hph, -⟩ | ⟨hph, -, -⟩ | ⟨-, hs'⟩
      · exact absurd rfl hp
      · simp [emptyWaiting] at hph
      · simp [emptyWaiting] at hph
      · exact Or.inr (Or.inr hs')
    · exact (no_step_of_done rfl hbc).elim

/-- **C10.** A submission with `count = 0` and an empty visits list
passes validation — a job is created with status "ongoing" — and
`processJob`, having no visits to scan and no units to dispatch, drives
it to terminal status "completed" with empty results and errors: the
completed state is reachable, and every quiescent reachable state equals
it. -/
theorem c10_empty_submission_completes (f : FetchOracle)
    (s : ProcState) (hr : Reaches f [] s) (hq : Quiescent f s) :
    handleSubmitJob ⟨true, false, 0, []⟩ = .created initJob [] ∧
    initJob.status = "ongoing" ∧
    Reaches f [] emptyDone ∧
    s = emptyDone ∧
    s.job.status = "completed" ∧ s.job.results = [] ∧ s.job.errors = [] ∧
    s.job.completedAtSet = true := by
  have hreach : Reaches f [] emptyDone :=
    Relation.ReflTransGen.head (Step.scanDone initJob [])
      (Relation.ReflTransGen.single (Step.finalize initJob []))
  have hse : s = emptyDone := by
    rcases reach_nil_cases hr with rfl | rfl | rfl
    · exact absurd (Step.scanDone initJob []) (hq _)
    · exact absurd (Step.finalize initJob []) (hq _)
    · rfl
  subst hse
  exact ⟨rfl, rfl, hreach, rfl, rfl, rfl, rfl, rfl⟩

theorem c10_empty_submission_completes_witness :
    handleSubmitJob ⟨true, false, 0, []⟩ = .created initJob [] ∧
    initJob.status = "ongoing" ∧
    Reaches fetch100 [] emptyDone ∧
    emptyDone = emptyDone ∧
    emptyDone.job.status = "completed" ∧ emptyDone.job.results = [] ∧
    emptyDone.job.errors = [] ∧ emptyDone.job.completedAtSet = true :=
  c10_empty_submission_completes fetch100 emptyDone
    (Relation.ReflTransGen.head (Step.scanDone initJob [])
      (Relation.ReflTransGen.single (Step.finalize initJob [])))
    (quiescent_of_done rfl)

end ImageProc
